import Mathlib

/-!
Verification of the Idlebrain image downloader (versions 1.1 to 1.4).

Strings are modelled as `String` or `List Char`.  HTTP transports are
modelled as oracles: a `HEAD` transport is a function from a URL to an
optional response (with `none` standing for a raised
`requests.RequestException`, including timeouts), and a `GET`-and-save
attempt is summarised by an `Outcome` value describing everything the
code can observe (transport errors, HTTP errors surfaced by
`raise_for_status`, the body chunks streamed, and filesystem errors).
-/

/-- Model of Python's `\w` / `[\w\d]` character class (ASCII fragment):
letters, digits or underscore. -/
def wordChar (c : Char) : Bool := c.isAlphanum || c = '_'

/-- The characters of the literal `index.html`. -/
def ihtml : List Char := "index.html".data

/-- The characters of the literal `/index.html`. -/
def slashIhtml : List Char := '/' :: ihtml

/-- Model of `re.search(r"/([\w\d]+)/index\.html", s)`: scan the string
left to right; at each `'/'` take the maximal run of word characters and
check that the literal `/index.html` follows (since `[\w\d]+` is greedy
and `/` is not a word character, backtracking never shortens the run).
Returns the captured group of the leftmost match. -/
def searchTok : List Char → Option (List Char)
  | [] => none
  | c :: rest =>
    if c = '/' then
      if !(rest.takeWhile wordChar).isEmpty
          && slashIhtml.isPrefixOf (rest.dropWhile wordChar) then
        some (rest.takeWhile wordChar)
      else searchTok rest
    else searchTok rest

/-- Model of Python's `s.rsplit('/', 1)[0]`: everything before the last
`'/'`, or the whole string when there is no `'/'`. -/
def rsplitBase (s : List Char) : List Char :=
  match s.reverse.dropWhile (fun c => c != '/') with
  | [] => s
  | _ :: pre => pre.reverse

/-- `extract_base_url_and_name` (v1.4 lines 22-37; the v1.1/v1.2
variants use the equivalent lookahead pattern): on a regex match the
base URL is the input split at its last `'/'` and the name is the
captured token with every non-alphabetic character removed
(`''.join(filter(str.isalpha, match.group(1)))`); with no match a
`ValueError` is raised, modelled by `none`. -/
def extract_base_url_and_name (u : List Char) : Option (List Char × List Char) :=
  match searchTok u with
  | none => none
  | some tok => some (rsplitBase u, tok.filter Char.isAlpha)

/-- The candidate URL `f"{base_url}/images/{name}{i}.jpg"`. -/
def imageUrl (base name : String) (i : Nat) : String :=
  base ++ "/images/" ++ name ++ toString i ++ ".jpg"

/-- `generate_image_urls` (v1.4 lines 40-52), also the body of v1.3's
`fetch_all_links`: `[f"{base_url}/images/{name}{i}.jpg" for i in
range(1, max_attempts + 1)]`.  `max_attempts` is a Python `int`;
`range(1, m + 1)` is empty whenever `m ≤ 0`. -/
def generate_image_urls (base name : String) (maxAttempts : Int) : List String :=
  (List.range maxAttempts.toNat).map (fun k => imageUrl base name (k + 1))

/-- A response to a `HEAD` request: status code and the value of the
`Content-Type` header (`headers.get('Content-Type', '')`). -/
structure HeadResp where
  status : Nat
  contentType : String
  deriving DecidableEq

/-- Python's `'image' in ct`: substring containment. -/
def hasImageCT (ct : String) : Bool := decide ("image".data <:+: ct.data)

/-- `is_image_url` (v1.2 lines 31-47): `True` iff the `HEAD` request
returns (no exception) with status 200 and `'image'` in the
`Content-Type` header; any `requests.RequestException` (modelled by the
transport returning `none`) yields `False`. -/
def is_image_url (head : String → Option HeadResp) (u : String) : Bool :=
  match head u with
  | some r => r.status == 200 && hasImageCT r.contentType
  | none => false

/-- `validate_url` (v1.1 lines 40-54): `True` iff the `HEAD` request
returns with status 200; the content type is not inspected.  Any
`requests.RequestException` yields `False`. -/
def validate_url (head : String → Option HeadResp) (u : String) : Bool :=
  match head u with
  | some r => r.status == 200
  | none => false

/-- `validate_image_urls` (v1.3 lines 57-85): iterate over the URLs in
order, appending to `valid_urls` exactly those whose `HEAD` response has
status 200 and an image content type; exceptions are swallowed
(`except requests.RequestException: pass`). -/
def validate_image_urls (head : String → Option HeadResp) : List String → List String
  | [] => []
  | u :: rest =>
    (match head u with
     | some r => if r.status == 200 && hasImageCT r.contentType then [u] else []
     | none => []) ++ validate_image_urls head rest

/-- How a streamed download attempt ends once the destination file has
been opened: all chunks written, a `requests.RequestException` raised
mid-stream by `iter_content`, or an `OSError` raised by `f.write`. -/
inductive StreamEnd where
  | complete
  | transportErr
  | writeErr
  deriving DecidableEq

/-- Everything `download_image` can observe for one URL.
`reqErr`: `session.get` or `response.raise_for_status()` raises a
`requests.RequestException` (connection error, timeout or HTTP error
status) before the destination file is opened.
`openErr`: `open(file_path, 'wb')` raises an `OSError`.
`streamed body k e`: the file is opened and the chunk-writing loop runs;
`body` is the full byte content the server would deliver (as a list of
chunks), and when `e` is not `complete` exactly the first `k` chunks
were written before the failing event. -/
inductive Outcome where
  | reqErr
  | openErr
  | streamed (body : List (List Nat)) (k : Nat) (e : StreamEnd)
  deriving DecidableEq

/-- The return-or-raise behaviour of `download_image` (v1.4 lines
55-78): `try` wraps everything; `except requests.RequestException`
returns `False`; an `OSError` from `open`/`write` is not caught and
propagates (`Except.error ()`); reaching the end returns `True`. -/
def download_image : Outcome → Except Unit Bool
  | .reqErr => .ok false
  | .openErr => .error ()
  | .streamed _ _ .complete => .ok true
  | .streamed _ _ .transportErr => .ok false
  | .streamed _ _ .writeErr => .error ()

/-- The destination file after `download_image` returns or raises:
`none` when the file was never opened, otherwise the chunks written
before the attempt ended (the `with open` block closes but never removes
the file). -/
def downloadFileState : Outcome → Option (List (List Nat))
  | .reqErr => none
  | .openErr => none
  | .streamed body _ .complete => some body
  | .streamed body k .transportErr => some (body.take k)
  | .streamed body k .writeErr => some (body.take k)

/-- `download_image o` returned `False` (the item is counted failed). -/
def isFailRes (o : Outcome) : Bool :=
  match download_image o with
  | .ok false => true
  | _ => false

/-- `download_image o` returned `True`. -/
def isSuccRes (o : Outcome) : Bool :=
  match download_image o with
  | .ok true => true
  | _ => false

/-- `download_image o` raised an uncaught exception. -/
def isExnRes (o : Outcome) : Bool :=
  match download_image o with
  | .error _ => true
  | _ => false

/-- The aggregation loop of `download_images` (v1.4 lines 103-112):
`for future in as_completed(futures): if future.result(): success += 1
else: fail += 1`.  `future.result()` re-raises any uncaught exception of
the worker, which then propagates out of `download_images`. -/
def downloadLoop : List Outcome → Nat → Nat → Except Unit (Nat × Nat)
  | [], s, f => .ok (s, f)
  | o :: rest, s, f =>
    match download_image o with
    | .error e => .error e
    | .ok true => downloadLoop rest (s + 1) f
    | .ok false => downloadLoop rest s (f + 1)

/-- `download_images` (v1.4 lines 81-112) on the outcomes of the
submitted URLs, taken in one completion order. -/
def download_images (outcomes : List Outcome) : Except Unit (Nat × Nat) :=
  downloadLoop outcomes 0 0

/-- The loop body of `discover_image_urls` (v1.2 lines 49-74), made
total with a fuel parameter: `while failures < 3`, probe
`f"{base_url}/images/{name}{index}.jpg"`, append and reset `failures`
on success, else increment `failures`; `index` and the probe counter
(`pbar.update(1)`) advance every iteration.  `none` means the fuel ran
out before the loop exited. -/
def discoverLoop (probe : String → Bool) (base name : String) :
    Nat → Nat → Nat → List String → Nat → Option (List String × Nat)
  | 0, _, _, _, _ => none
  | fuel + 1, failures, index, acc, probes =>
    if failures ≥ 3 then some (acc.reverse, probes)
    else if probe (imageUrl base name index) then
      discoverLoop probe base name fuel 0 (index + 1) (imageUrl base name index :: acc) (probes + 1)
    else discoverLoop probe base name fuel (failures + 1) (index + 1) acc (probes + 1)

/-- `discover_image_urls` (v1.2 lines 49-74): run the loop from
`failures = 0`, `index = 1` with the given fuel; on exit return the
discovered URLs together with the number of probes performed. -/
def discover_image_urls (probe : String → Bool) (base name : String) (fuel : Nat) :
    Option (List String × Nat) :=
  discoverLoop probe base name fuel 0 1 [] 0

/-- The discovery loop exits after finitely many iterations. -/
def DiscoverTerminates (probe : String → Bool) (base name : String) : Prop :=
  ∃ fuel, (discover_image_urls probe base name fuel).isSome

/-- The v1.3 driver (`main`, v1.3 lines 148-183): extract, generate
candidates with `fetch_all_links(base_url, name)` — `main` passes no
bound, so the hard-coded default `max_attempts=100` applies — then
`HEAD`-validate and download the valid URLs only.  The result exposes
(number of generated candidates, number of valid URLs, succeeded,
failed); of these, `main` prints `Total: len(valid_urls)`,
`Downloaded: succeeded` and `Failed: failed`, while the candidate count
is `len(all_urls) = 100`.  `none` models an exception escaping to
`main`'s handler. -/
def pipeline_v13 (head : String → Option HeadResp) (get : String → Outcome)
    (url : String) : Option (Nat × Nat × Nat × Nat) :=
  match extract_base_url_and_name url.data with
  | none => none
  | some (b, nm) =>
    let all := generate_image_urls (String.mk b) (String.mk nm) 100
    let valid := validate_image_urls head all
    match download_images (valid.map get) with
    | .error _ => none
    | .ok (s, f) => some (all.length, valid.length, s, f)

/-- The v1.4 driver (`main`, v1.4 lines 115-147): extract, generate the
bounded candidate list with the user-supplied `max_attempts`, and
download every candidate with no validation stage.  The result is the
printed report (`Total: len(all_urls)`, `Downloaded: success_count`,
`Failed: fail_count`); `none` models an exception escaping to `main`'s
handler. -/
def pipeline_v14 (get : String → Outcome) (url : String) (bound : Int) :
    Option (Nat × Nat × Nat) :=
  match extract_base_url_and_name url.data with
  | none => none
  | some (b, nm) =>
    let all := generate_image_urls (String.mk b) (String.mk nm) bound
    match download_images (all.map get) with
    | .error _ => none
    | .ok (s, f) => some (all.length, s, f)

/-- A synthetic prober for the spec scenario of the adaptive generator:
classifies exactly the candidate URLs for indices 1, 2, 3 as existing. -/
def demoProbe (u : String) : Bool :=
  u == imageUrl "http://s" "pic" 1 || u == imageUrl "http://s" "pic" 2
    || u == imageUrl "http://s" "pic" 3

/-- Candidate URL shape of the end-to-end spec scenario. -/
def c7url (i : Nat) : String := imageUrl "https://site.example/gallery42" "gallery" i

/-- Synthetic `HEAD` transport serving images for indices 1 and 3 only. -/
def c7head (u : String) : Option HeadResp :=
  if u = c7url 1 ∨ u = c7url 3 then some ⟨200, "image/jpeg"⟩ else none

/-- Synthetic `GET` transport serving images for indices 1 and 3 only. -/
def c7get (u : String) : Outcome :=
  if u = c7url 1 ∨ u = c7url 3 then .streamed [[7]] 1 .complete else .reqErr

example : searchTok "https://a/tok/index.html".data = some "tok".data := by decide

example : extract_base_url_and_name "https://a/gal42/index.html".data
    = some ("https://a/gal42".data, "gal".data) := by decide

example : generate_image_urls "b" "n" 2 = ["b/images/n1.jpg", "b/images/n2.jpg"] := by decide

example : download_images [.reqErr, .streamed [[1]] 1 .complete] = .ok (1, 1) := rfl

example : download_images [.streamed [[1]] 0 .writeErr, .reqErr] = .error () := rfl

example :
    discover_image_urls (fun u => u == imageUrl "b" "n" 1 || u == imageUrl "b" "n" 2
      || u == imageUrl "b" "n" 3) "b" "n" 100
    = some ([imageUrl "b" "n" 1, imageUrl "b" "n" 2, imageUrl "b" "n" 3], 6) := by decide

/-! ### Helper lemmas about the regex-search model -/

theorem takeWhile_word_append (t l : List Char) (c0 : Char)
    (ht : ∀ c ∈ t, wordChar c = true) (hc : wordChar c0 = false) :
    (t ++ c0 :: l).takeWhile wordChar = t ∧ (t ++ c0 :: l).dropWhile wordChar = c0 :: l := by
  induction t with
  | nil => simp [List.takeWhile_cons, List.dropWhile_cons, hc]
  | cons a t ih =>
    have ha : wordChar a = true := ht a (by simp)
    have ih' := ih (fun c hc' => ht c (by simp [hc']))
    simp [List.takeWhile_cons, List.dropWhile_cons, ha, ih'.1, ih'.2]

theorem dropWhile_eq_cons_imp {p : Char → Bool} {l : List Char} {a : Char} {as : List Char}
    (h : l.dropWhile p = a :: as) : p a = false := by
  induction l with
  | nil => simp [List.dropWhile] at h
  | cons x xs ih =>
    rw [List.dropWhile_cons] at h
    by_cases hx : p x = true
    · exact ih (by simpa [hx] using h)
    · obtain ⟨rfl, -⟩ : x = a ∧ xs = as := by
        simpa [hx] using h
      simpa using hx

theorem ihtml_prefix_of_append_slash {X Y : List Char}
    (h : ihtml <+: X ++ '/' :: Y) : ihtml <+: X := by
  rcases List.prefix_or_prefix_of_prefix h (List.prefix_append X ('/' :: Y)) with h1 | h2
  · exact h1
  · have hlen : X.length ≤ ihtml.length := h2.length_le
    rcases eq_or_lt_of_le hlen with heq | hlt
    · have hx : X = ihtml := h2.eq_of_length heq
      exact hx ▸ List.prefix_refl _
    · exfalso
      have hi := h.getElem hlt
      rw [List.getElem_append_right (Nat.le_refl _)] at hi
      simp only [Nat.sub_self, List.getElem_cons_zero] at hi
      have hmem : ('/' : Char) ∈ ihtml := hi ▸ List.getElem_mem hlt
      exact absurd hmem (by decide)

theorem searchTok_append (b t : List Char) (ht : t ≠ [])
    (htw : ∀ c ∈ t, wordChar c = true) (hb : ¬ ihtml <:+: b) :
    searchTok (b ++ '/' :: t ++ slashIhtml) = some t := by
  induction b with
  | nil =>
    have hsp := takeWhile_word_append t ihtml '/' htw (by decide)
    have hform : t ++ slashIhtml = t ++ '/' :: ihtml := rfl
    simp only [List.nil_append, searchTok, if_pos rfl, List.append_eq]
    rw [hform, hsp.1, hsp.2]
    have hne : t.isEmpty = false := by
      cases t with
      | nil => exact absurd rfl ht
      | cons a t => rfl
    have hpre : slashIhtml.isPrefixOf ('/' :: ihtml) = true := by
      rw [List.isPrefixOf_iff_prefix]
      exact List.prefix_refl _
    rw [hne, hpre]
    simp
  | cons c b ih =>
    have hb' : ¬ ihtml <:+: b := by
      rintro ⟨x, y, hxy⟩
      exact hb ⟨c :: x, y, by rw [← hxy]; simp⟩
    by_cases hc : c = '/'
    · subst hc
      have hassoc : (('/' : Char) :: b) ++ '/' :: t ++ slashIhtml
          = '/' :: (b ++ '/' :: t ++ slashIhtml) := by simp
      rw [hassoc]
      simp only [searchTok, if_pos rfl, List.append_eq]
      have hcond : (!((b ++ '/' :: t ++ slashIhtml).takeWhile wordChar).isEmpty
          && slashIhtml.isPrefixOf ((b ++ '/' :: t ++ slashIhtml).dropWhile wordChar)) = false := by
        cases hcnd : (!((b ++ '/' :: t ++ slashIhtml).takeWhile wordChar).isEmpty
            && slashIhtml.isPrefixOf ((b ++ '/' :: t ++ slashIhtml).dropWhile wordChar)) with
        | false => rfl
        | true =>
          exfalso
          rw [Bool.and_eq_true, List.isPrefixOf_iff_prefix] at hcnd
          obtain ⟨-, hpre⟩ := hcnd
          cases hd : b.dropWhile wordChar with
          | nil =>
            have hbw : ∀ c ∈ b, wordChar c = true := by
              intro c hcmem
              have hbeq : b.takeWhile wordChar = b := by
                have h0 := List.takeWhile_append_dropWhile wordChar b
                rw [hd] at h0
                simpa using h0
              exact List.mem_takeWhile_imp (hbeq ▸ hcmem)
            have hsp := takeWhile_word_append b (t ++ slashIhtml) '/' hbw (by decide)
            have hkey : b ++ '/' :: t ++ slashIhtml = b ++ '/' :: (t ++ slashIhtml) := by simp
            rw [hkey, hsp.2] at hpre
            rw [show slashIhtml = '/' :: ihtml from rfl, List.cons_prefix_cons] at hpre
            have hih2 : ihtml <+: t :=
              ihtml_prefix_of_append_slash (X := t) (Y := ihtml) hpre.2
            have hdot : ('.' : Char) ∈ t := hih2.subset (by decide)
            exact absurd (htw '.' hdot) (by decide)
          | cons c0 d =>
            have hc0 : wordChar c0 = false := dropWhile_eq_cons_imp hd
            have hbdec : b.takeWhile wordChar ++ c0 :: d = b := by
              have h0 := List.takeWhile_append_dropWhile wordChar b
              rw [hd] at h0
              exact h0
            have hbw : ∀ c ∈ b.takeWhile wordChar, wordChar c = true :=
              fun c hcmem => List.mem_takeWhile_imp hcmem
            have hsp := takeWhile_word_append (b.takeWhile wordChar)
              (d ++ '/' :: (t ++ slashIhtml)) c0 hbw hc0
            have hkey : b ++ '/' :: t ++ slashIhtml
                = b.takeWhile wordChar ++ c0 :: (d ++ '/' :: (t ++ slashIhtml)) := by
              conv_lhs => rw [← hbdec]
              simp
            rw [hkey, hsp.2] at hpre
            rw [show slashIhtml = '/' :: ihtml from rfl, List.cons_prefix_cons] at hpre
            obtain ⟨hc0eq, hih⟩ := hpre
            have hih2 : ihtml <+: d :=
              ihtml_prefix_of_append_slash (X := d) (Y := t ++ slashIhtml) hih
            obtain ⟨y, hy⟩ := hih2
            rw [← hy] at hbdec
            refine hb' ⟨b.takeWhile wordChar ++ [c0], y, ?_⟩
            calc (b.takeWhile wordChar ++ [c0]) ++ ihtml ++ y
                = b.takeWhile wordChar ++ c0 :: (ihtml ++ y) := by simp
              _ = b := hbdec
      rw [hcond]
      simp only [Bool.false_eq_true, if_false]
      exact ih hb'
    · have hassoc : (c :: b) ++ '/' :: t ++ slashIhtml
          = c :: (b ++ '/' :: t ++ slashIhtml) := by simp
      rw [hassoc]
      simp only [searchTok, if_neg hc]
      exact ih hb'

theorem dropWhile_ne_slash (xs ys : List Char) (hx : ∀ c ∈ xs, (c != '/') = true) :
    (xs ++ '/' :: ys).dropWhile (fun c => c != '/') = '/' :: ys := by
  induction xs with
  | nil => simp [List.dropWhile_cons]
  | cons a xs ih =>
    have ha := hx a (by simp)
    have ih' := ih (fun c hc => hx c (by simp [hc]))
    simp only [List.cons_append, List.dropWhile_cons, ha]
    simpa using ih'

theorem rsplitBase_append (b t : List Char) :
    rsplitBase (b ++ '/' :: t ++ slashIhtml) = b ++ '/' :: t := by
  have hrev : (b ++ '/' :: t ++ slashIhtml).reverse
      = ihtml.reverse ++ '/' :: (t.reverse ++ '/' :: b.reverse) := by
    rw [show slashIhtml = '/' :: ihtml from rfl]
    simp
  have hx : ∀ c ∈ ihtml.reverse, (c != '/') = true := by decide
  unfold rsplitBase
  rw [hrev, dropWhile_ne_slash _ _ hx]
  simp

theorem searchTok_some_decomp (s tok : List Char) (h : searchTok s = some tok) :
    ∃ x y, s = x ++ '/' :: tok ++ slashIhtml ++ y ∧ tok ≠ []
      ∧ ∀ c ∈ tok, wordChar c = true := by
  induction s with
  | nil => simp [searchTok] at h
  | cons c rest ih =>
    by_cases hc : c = '/'
    · subst hc
      rw [searchTok, if_pos rfl] at h
      by_cases hcnd : (!(rest.takeWhile wordChar).isEmpty
          && slashIhtml.isPrefixOf (rest.dropWhile wordChar)) = true
      · rw [if_pos hcnd] at h
        obtain rfl : rest.takeWhile wordChar = tok := by
          simpa using h
        rw [Bool.and_eq_true, List.isPrefixOf_iff_prefix] at hcnd
        obtain ⟨hne, hpre⟩ := hcnd
        obtain ⟨y, hy⟩ := hpre
        refine ⟨[], y, ?_, ?_, fun c hc => List.mem_takeWhile_imp hc⟩
        · have hsplit := List.takeWhile_append_dropWhile wordChar rest
          rw [← hy] at hsplit
          simp only [List.nil_append]
          conv_lhs => rw [← hsplit]
          simp
        · intro htok
          rw [htok] at hne
          simp at hne
      · rw [if_neg hcnd] at h
        obtain ⟨x, y, hxy, hne, hw⟩ := ih h
        exact ⟨'/' :: x, y, by rw [hxy]; rfl, hne, hw⟩
    · rw [searchTok, if_neg hc] at h
      obtain ⟨x, y, hxy, hne, hw⟩ := ih h
      exact ⟨c :: x, y, by rw [hxy]; rfl, hne, hw⟩

theorem searchTok_isSome_of_decomp (x t y : List Char) (ht : t ≠ [])
    (htw : ∀ c ∈ t, wordChar c = true) :
    (searchTok (x ++ '/' :: t ++ slashIhtml ++ y)).isSome = true := by
  induction x with
  | nil =>
    have hsp := takeWhile_word_append t (ihtml ++ y) '/' htw (by decide)
    have hform : t ++ slashIhtml ++ y = t ++ '/' :: (ihtml ++ y) := by
      rw [show slashIhtml = '/' :: ihtml from rfl]
      simp
    simp only [List.nil_append, searchTok, if_pos rfl, List.append_eq]
    rw [hform, hsp.1, hsp.2]
    have hne : t.isEmpty = false := by
      cases t with
      | nil => exact absurd rfl ht
      | cons a t => rfl
    have hpre : slashIhtml.isPrefixOf ('/' :: (ihtml ++ y)) = true := by
      rw [List.isPrefixOf_iff_prefix, show slashIhtml = '/' :: ihtml from rfl]
      exact ⟨y, by simp⟩
    rw [hne, hpre]
    simp
  | cons c x ih =>
    have hassoc : (c :: x) ++ '/' :: t ++ slashIhtml ++ y
        = c :: (x ++ '/' :: t ++ slashIhtml ++ y) := by simp
    rw [hassoc]
    by_cases hc : c = '/'
    · subst hc
      rw [searchTok, if_pos rfl]
      by_cases hcnd : (!((x ++ '/' :: t ++ slashIhtml ++ y).takeWhile wordChar).isEmpty
          && slashIhtml.isPrefixOf ((x ++ '/' :: t ++ slashIhtml ++ y).dropWhile wordChar)) = true
      · rw [if_pos hcnd]
        rfl
      · rw [if_neg hcnd]
        exact ih
    · rw [searchTok, if_neg hc]
      exact ih

/-! ### Helper lemmas about the download aggregation loop -/

theorem downloadLoop_eq (outs : List Outcome) : ∀ s f,
    downloadLoop outs s f = if outs.any isExnRes then .error ()
      else .ok (s + outs.countP isSuccRes, f + outs.countP isFailRes) := by
  induction outs with
  | nil => intro s f; simp [downloadLoop]
  | cons o rest ih =>
    intro s f
    cases ho : download_image o with
    | error e =>
      cases e
      have hexn : isExnRes o = true := by simp [isExnRes, ho]
      simp [downloadLoop, ho, hexn]
    | ok b =>
      have hexn : isExnRes o = false := by simp [isExnRes, ho]
      cases b
      · have hs : isSuccRes o = false := by simp [isSuccRes, ho]
        have hf : isFailRes o = true := by simp [isFailRes, ho]
        simp only [downloadLoop, ho, ih, List.any_cons, hexn, Bool.false_or,
          List.countP_cons, hs, hf]
        by_cases h : rest.any isExnRes = true
        · simp [h]
        · simp only [Bool.not_eq_true] at h
          simp [h]
          all_goals omega
      · have hs : isSuccRes o = true := by simp [isSuccRes, ho]
        have hf : isFailRes o = false := by simp [isFailRes, ho]
        simp only [downloadLoop, ho, ih, List.any_cons, hexn, Bool.false_or,
          List.countP_cons, hs, hf]
        by_cases h : rest.any isExnRes = true
        · simp [h]
        · simp only [Bool.not_eq_true] at h
          simp [h]
          all_goals omega

theorem download_images_eq (outs : List Outcome) :
    download_images outs = if outs.any isExnRes then .error ()
      else .ok (outs.countP isSuccRes, outs.countP isFailRes) := by
  have h := downloadLoop_eq outs 0 0
  simpa [download_images] using h

theorem perm_any_eq {l₁ l₂ : List Outcome} (h : l₁.Perm l₂) (p : Outcome → Bool) :
    l₁.any p = l₂.any p := by
  cases h1 : l₁.any p with
  | true =>
    obtain ⟨x, hx, hpx⟩ := List.any_eq_true.mp h1
    rw [List.any_eq_true.mpr ⟨x, h.mem_iff.mp hx, hpx⟩]
  | false =>
    cases h2 : l₂.any p with
    | false => rfl
    | true =>
      obtain ⟨x, hx, hpx⟩ := List.any_eq_true.mp h2
      have hcontra := List.any_eq_true.mpr ⟨x, h.mem_iff.mpr hx, hpx⟩
      rw [h1] at hcontra
      exact absurd hcontra (by decide)

/-! ### Helper lemmas about the adaptive discovery loop -/

theorem discoverLoop_succ (probe : String → Bool) (base name : String)
    (fuel failures index : Nat) (acc : List String) (probes : Nat) :
    discoverLoop probe base name (fuel + 1) failures index acc probes
    = if failures ≥ 3 then some (acc.reverse, probes)
      else if probe (imageUrl base name index) then
        discoverLoop probe base name fuel 0 (index + 1) (imageUrl base name index :: acc)
          (probes + 1)
      else discoverLoop probe base name fuel (failures + 1) (index + 1) acc (probes + 1) := rfl

theorem discoverLoop_some_triple (probe : String → Bool) (base nm : String) :
    ∀ fuel failures index acc probes r,
      discoverLoop probe base nm fuel failures index acc probes = some r →
      failures ≤ 3 → failures < index →
      (∀ k, index - failures ≤ k → k < index → probe (imageUrl base nm k) = false) →
      ∃ j, 1 ≤ j ∧ probe (imageUrl base nm j) = false
        ∧ probe (imageUrl base nm (j + 1)) = false
        ∧ probe (imageUrl base nm (j + 2)) = false := by
  intro fuel
  induction fuel with
  | zero =>
    intro failures index acc probes r h
    simp [discoverLoop] at h
  | succ fuel ih =>
    intro failures index acc probes r h h3 hlt hall
    by_cases hf : failures ≥ 3
    · refine ⟨index - 3, by omega, ?_, ?_, ?_⟩
      · exact hall (index - 3) (by omega) (by omega)
      · have he : index - 3 + 1 = index - 2 := by omega
        rw [he]
        exact hall (index - 2) (by omega) (by omega)
      · have he : index - 3 + 2 = index - 1 := by omega
        rw [he]
        exact hall (index - 1) (by omega) (by omega)
    · rw [discoverLoop_succ, if_neg hf] at h
      by_cases hp : probe (imageUrl base nm index) = true
      · rw [if_pos hp] at h
        refine ih 0 (index + 1) _ _ r h (by omega) (by omega) ?_
        intro k hk1 hk2
        exact absurd hk2 (by omega)
      · simp only [Bool.not_eq_true] at hp
        rw [hp] at h
        simp only [Bool.false_eq_true, if_false] at h
        refine ih (failures + 1) (index + 1) acc (probes + 1) r h (by omega) (by omega) ?_
        intro k hk1 hk2
        by_cases hk : k < index
        · exact hall k (by omega) hk
        · have hkeq : k = index := by omega
          rw [hkeq]
          exact hp

theorem discoverLoop_isSome (probe : String → Bool) (base nm : String) (j : Nat)
    (h1 : probe (imageUrl base nm j) = false)
    (h2 : probe (imageUrl base nm (j + 1)) = false)
    (h3 : probe (imageUrl base nm (j + 2)) = false) :
    ∀ fuel failures index acc probes,
      (index ≤ j ∨ (index = j + 1 ∧ 1 ≤ failures) ∨ (index = j + 2 ∧ 2 ≤ failures)
        ∨ (index = j + 3 ∧ 3 ≤ failures)) →
      j + 4 ≤ index + fuel →
      (discoverLoop probe base nm fuel failures index acc probes).isSome = true := by
  intro fuel
  induction fuel with
  | zero =>
    intro failures index acc probes hreg hfuel
    omega
  | succ fuel ih =>
    intro failures index acc probes hreg hfuel
    rw [discoverLoop_succ]
    by_cases hf : failures ≥ 3
    · rw [if_pos hf]
      rfl
    · rw [if_neg hf]
      rcases hreg with hle | ⟨hidx, hfl⟩ | ⟨hidx, hfl⟩ | ⟨hidx, hfl⟩
      · by_cases hij : index = j
        · rw [hij, h1]
          simp only [Bool.false_eq_true, if_false]
          exact ih (failures + 1) (j + 1) acc (probes + 1)
            (Or.inr (Or.inl ⟨rfl, by omega⟩)) (by omega)
        · by_cases hp : probe (imageUrl base nm index) = true
          · rw [if_pos hp]
            exact ih 0 (index + 1) _ (probes + 1) (Or.inl (by omega)) (by omega)
          · simp only [Bool.not_eq_true] at hp
            rw [hp]
            simp only [Bool.false_eq_true, if_false]
            exact ih (failures + 1) (index + 1) acc (probes + 1) (Or.inl (by omega)) (by omega)
      · rw [hidx, h2]
        simp only [Bool.false_eq_true, if_false]
        exact ih (failures + 1) (j + 1 + 1) acc (probes + 1)
          (Or.inr (Or.inr (Or.inl ⟨by omega, by omega⟩))) (by omega)
      · rw [hidx, h3]
        simp only [Bool.false_eq_true, if_false]
        exact ih (failures + 1) (j + 2 + 1) acc (probes + 1)
          (Or.inr (Or.inr (Or.inr ⟨by omega, by omega⟩))) (by omega)
      · omega

theorem discoverLoop_some_eq (probe : String → Bool) (base nm : String) :
    ∀ fuel failures index acc probes urls pn,
      discoverLoop probe base nm fuel failures index acc probes = some (urls, pn) →
      index = probes + 1 →
      index ≤ pn + 1 ∧ urls = acc.reverse
        ++ ((List.range' index (pn + 1 - index)).filter
              (fun i => probe (imageUrl base nm i))).map (imageUrl base nm) := by
  intro fuel
  induction fuel with
  | zero =>
    intro failures index acc probes urls pn h
    simp [discoverLoop] at h
  | succ fuel ih =>
    intro failures index acc probes urls pn h hip
    rw [discoverLoop_succ] at h
    by_cases hf : failures ≥ 3
    · rw [if_pos hf] at h
      obtain ⟨rfl, rfl⟩ : urls = acc.reverse ∧ pn = probes := by
        have h2 := Option.some.inj h
        exact ⟨(congrArg Prod.fst h2).symm, (congrArg Prod.snd h2).symm⟩
      refine ⟨by omega, ?_⟩
      have hz : pn + 1 - index = 0 := by omega
      rw [hz]
      simp
    · rw [if_neg hf] at h
      by_cases hp : probe (imageUrl base nm index) = true
      · rw [if_pos hp] at h
        obtain ⟨hle, heq⟩ := ih 0 (index + 1) _ (probes + 1) urls pn h (by omega)
        refine ⟨by omega, ?_⟩
        rw [heq]
        have hr : pn + 1 - index = (pn - index) + 1 := by omega
        rw [hr, List.range'_succ]
        have hr2 : pn + 1 - (index + 1) = pn - index := by omega
        rw [hr2] at heq ⊢
        simp [List.filter_cons, hp, List.append_assoc]
      · simp only [Bool.not_eq_true] at hp
        rw [hp] at h
        simp only [Bool.false_eq_true, if_false] at h
        obtain ⟨hle, heq⟩ := ih (failures + 1) (index + 1) acc (probes + 1) urls pn h (by omega)
        refine ⟨by omega, ?_⟩
        rw [heq]
        have hr : pn + 1 - index = (pn - index) + 1 := by omega
        rw [hr, List.range'_succ]
        have hr2 : pn + 1 - (index + 1) = pn - index := by omega
        rw [hr2]
        simp [List.filter_cons, hp]

theorem discoverLoop_stop (probe : String → Bool) (base nm : String) :
    ∀ fuel failures index acc probes urls pn,
      discoverLoop probe base nm fuel failures index acc probes = some (urls, pn) →
      index = probes + 1 → failures ≤ 3 → failures ≤ probes →
      (∀ k, probes - failures < k → k ≤ probes → probe (imageUrl base nm k) = false) →
      (failures < probes → probe (imageUrl base nm (probes - failures)) = true) →
      (∀ m, 3 ≤ m → m < probes → ¬(probe (imageUrl base nm (m - 2)) = false
          ∧ probe (imageUrl base nm (m - 1)) = false
          ∧ probe (imageUrl base nm m) = false)) →
      3 ≤ pn ∧ probe (imageUrl base nm (pn - 2)) = false
        ∧ probe (imageUrl base nm (pn - 1)) = false
        ∧ probe (imageUrl base nm pn) = false
        ∧ ∀ m, 3 ≤ m → m < pn → ¬(probe (imageUrl base nm (m - 2)) = false
            ∧ probe (imageUrl base nm (m - 1)) = false
            ∧ probe (imageUrl base nm m) = false) := by
  intro fuel
  induction fuel with
  | zero =>
    intro failures index acc probes urls pn h
    simp [discoverLoop] at h
  | succ fuel ih =>
    intro failures index acc probes urls pn h hip h3 hfp hstreak hbound hmin
    by_cases hf : failures ≥ 3
    · rw [discoverLoop_succ, if_pos hf] at h
      have hpn : probes = pn := congrArg Prod.snd (Option.some.inj h)
      subst hpn
      have hfe : failures = 3 := by omega
      refine ⟨by omega, ?_, ?_, ?_, hmin⟩
      · exact hstreak (probes - 2) (by omega) (by omega)
      · exact hstreak (probes - 1) (by omega) (by omega)
      · exact hstreak probes (by omega) (by omega)
    · rw [discoverLoop_succ, if_neg hf] at h
      have hnt : ¬(probe (imageUrl base nm (probes - 2)) = false
          ∧ probe (imageUrl base nm (probes - 1)) = false
          ∧ probe (imageUrl base nm probes) = false) ∨ probes < 3 := by
        by_cases hp3 : probes < 3
        · exact Or.inr hp3
        · refine Or.inl ?_
          rintro ⟨ht2, ht1, ht0⟩
          by_cases hflt : failures < probes
          · have hbt := hbound hflt
            have hcases : probes - failures = probes - 2 ∨ probes - failures = probes - 1
                ∨ probes - failures = probes := by omega
            rcases hcases with hc | hc | hc
            · rw [hc, ht2] at hbt
              exact absurd hbt (by decide)
            · rw [hc, ht1] at hbt
              exact absurd hbt (by decide)
            · rw [hc, ht0] at hbt
              exact absurd hbt (by decide)
          · omega
      have hminNew : ∀ m, 3 ≤ m → m < probes + 1 →
          ¬(probe (imageUrl base nm (m - 2)) = false
            ∧ probe (imageUrl base nm (m - 1)) = false
            ∧ probe (imageUrl base nm m) = false) := by
        intro m hm3 hmlt
        by_cases hmp : m < probes
        · exact hmin m hm3 hmp
        · have hme : m = probes := by omega
          subst hme
          rcases hnt with hnt2 | hlt3
          · exact hnt2
          · omega
      by_cases hp : probe (imageUrl base nm index) = true
      · rw [if_pos hp] at h
        refine ih 0 (index + 1) _ (probes + 1) urls pn h (by omega) (by omega) (by omega)
          ?_ ?_ hminNew
        · intro k hk1 hk2
          exact absurd hk2 (by omega)
        · intro hlt
          have he : probes + 1 - 0 = index := by omega
          rw [he]
          exact hp
      · simp only [Bool.not_eq_true] at hp
        rw [hp] at h
        simp only [Bool.false_eq_true, if_false] at h
        refine ih (failures + 1) (index + 1) acc (probes + 1) urls pn h (by omega) (by omega)
          (by omega) ?_ ?_ hminNew
        · intro k hk1 hk2
          by_cases hkp : k ≤ probes
          · exact hstreak k (by omega) hkp
          · have he : k = probes + 1 := by omega
            rw [he, ← hip]
            exact hp
        · intro hlt
          have he : probes + 1 - (failures + 1) = probes - failures := by omega
          rw [he]
          exact hbound (by omega)

theorem countP_succ_add_fail (outs : List Outcome)
    (h : ∀ o ∈ outs, isExnRes o = false) :
    outs.countP isSuccRes + outs.countP isFailRes = outs.length := by
  induction outs with
  | nil => simp
  | cons o rest ih =>
    have ho := h o (by simp)
    have hrest := ih (fun o' ho' => h o' (by simp [ho']))
    rw [List.countP_cons, List.countP_cons]
    cases hdi : download_image o with
    | error e =>
      have hh : isExnRes o = true := by simp [isExnRes, hdi]
      rw [hh] at ho
      exact absurd ho (by decide)
    | ok b =>
      cases b
      · have hs : isSuccRes o = false := by simp [isSuccRes, hdi]
        have hf : isFailRes o = true := by simp [isFailRes, hdi]
        simp only [hs, hf, Bool.false_eq_true, if_false, if_true, List.length_cons]
        omega
      · have hs : isSuccRes o = true := by simp [isSuccRes, hdi]
        have hf : isFailRes o = false := by simp [isFailRes, hdi]
        simp only [hs, hf, Bool.false_eq_true, if_false, if_true, List.length_cons]
        omega

/-! ### Claim theorems -/

/-- C1, counterexample: the claim promises terminal counts for every
per-URL behaviour including filesystem write failures, but a write
failure makes `download_images` raise instead of returning counts: on a
single URL whose attempt hits an `OSError` mid-write, the function
yields an exception and no `(success, fail)` pair at all. -/
theorem c1_counterexample :
    download_images [Outcome.streamed [[0]] 0 StreamEnd.writeErr] = .error ()
      ∧ ¬ ∃ s f, download_images [Outcome.streamed [[0]] 0 StreamEnd.writeErr]
          = Except.ok (s, f) ∧ s + f = 1 := by
  constructor
  · rfl
  · rintro ⟨s, f, hsf, -⟩
    rw [show download_images [Outcome.streamed [[0]] 0 StreamEnd.writeErr]
        = Except.error () from rfl] at hsf
    exact Except.noConfusion hsf

/-- C1, amended: when no per-URL attempt raises an uncaught exception
(in particular when every failure is a `requests.RequestException`,
i.e. a transport error or a non-success status), `download_images`
returns counts with `success + fail = N` and `fail` equal to the number
of failing URLs, in every completion order of the pool; but a
filesystem write failure escapes `download_image` and propagates, so
the claim's inclusion of filesystem write failures fails. -/
theorem c1_download_counts (outs : List Outcome)
    (h : ∀ o ∈ outs, isExnRes o = false) :
    ∃ s f, download_images outs = Except.ok (s, f) ∧ s + f = outs.length
      ∧ f = outs.countP isFailRes := by
  have hany : outs.any isExnRes = false := by
    cases hx : outs.any isExnRes with
    | false => rfl
    | true =>
      obtain ⟨x, hx1, hx2⟩ := List.any_eq_true.mp hx
      rw [h x hx1] at hx2
      exact absurd hx2 (by decide)
  rw [download_images_eq, hany]
  simp only [Bool.false_eq_true, if_false]
  exact ⟨outs.countP isSuccRes, outs.countP isFailRes, rfl, countP_succ_add_fail outs h, rfl⟩

/-- C1, witness: two URLs, one succeeding and one failing with a
transport error, give `success + fail = 2` and `fail = 1`. -/
theorem c1_download_counts_witness :
    ∃ s f, download_images [Outcome.streamed [[0]] 1 StreamEnd.complete, Outcome.reqErr]
      = Except.ok (s, f)
      ∧ s + f = [Outcome.streamed [[0]] 1 StreamEnd.complete, Outcome.reqErr].length
      ∧ f = [Outcome.streamed [[0]] 1 StreamEnd.complete, Outcome.reqErr].countP isFailRes :=
  c1_download_counts [Outcome.streamed [[0]] 1 StreamEnd.complete, Outcome.reqErr] (by decide)

/-- C2: for every prober, the adaptive discovery loop stops after
exactly 3 (the hard-coded threshold) consecutive not-found
classifications following the last confirmed-valid candidate and never
probes any index beyond that point: whenever the loop exits after `pn`
probes, the last three probed indices `pn-2, pn-1, pn` were all
classified not found and no earlier probed index ends a run of three
consecutive not-founds (so `pn` is the first stopping point and no
index past it is probed); and with a synthetic prober classifying
exactly indices 1, 2, 3 as existing, the loop performs exactly 6
probes (3 hits then 3 consecutive misses) and returns exactly the 3
URLs for indices 1..3. -/
theorem c2_adaptive_stop :
    (∀ (probe : String → Bool) (base nm : String) (fuel : Nat) (urls : List String) (pn : Nat),
      discover_image_urls probe base nm fuel = some (urls, pn) →
      3 ≤ pn
      ∧ probe (imageUrl base nm (pn - 2)) = false
      ∧ probe (imageUrl base nm (pn - 1)) = false
      ∧ probe (imageUrl base nm pn) = false
      ∧ ∀ m, 3 ≤ m → m < pn →
          ¬(probe (imageUrl base nm (m - 2)) = false
            ∧ probe (imageUrl base nm (m - 1)) = false
            ∧ probe (imageUrl base nm m) = false))
    ∧ discover_image_urls demoProbe "http://s" "pic" 100
        = some ([imageUrl "http://s" "pic" 1, imageUrl "http://s" "pic" 2,
            imageUrl "http://s" "pic" 3], 6) := by
  constructor
  · intro probe base nm fuel urls pn h
    unfold discover_image_urls at h
    exact discoverLoop_stop probe base nm fuel 0 1 [] 0 urls pn h rfl (by omega) (by omega)
      (fun k hk1 hk2 => absurd hk2 (by omega))
      (fun hlt => absurd hlt (by omega))
      (fun m hm3 hmlt => absurd hmlt (by omega))
  · decide

/-- C2, witness: the universal stopping rule evaluated on the synthetic
prober run that exits after 6 probes: indices 4, 5, 6 were the three
consecutive misses and no earlier index ends such a run. -/
theorem c2_adaptive_stop_witness :
    3 ≤ 6
    ∧ demoProbe (imageUrl "http://s" "pic" (6 - 2)) = false
    ∧ demoProbe (imageUrl "http://s" "pic" (6 - 1)) = false
    ∧ demoProbe (imageUrl "http://s" "pic" 6) = false
    ∧ ∀ m, 3 ≤ m → m < 6 →
        ¬(demoProbe (imageUrl "http://s" "pic" (m - 2)) = false
          ∧ demoProbe (imageUrl "http://s" "pic" (m - 1)) = false
          ∧ demoProbe (imageUrl "http://s" "pic" m) = false) :=
  c2_adaptive_stop.1 demoProbe "http://s" "pic" 100
    [imageUrl "http://s" "pic" 1, imageUrl "http://s" "pic" 2, imageUrl "http://s" "pic" 3]
    6 (by decide)

/-- C3, counterexample: a mid-stream transport error after one of two
chunks was written makes `download_image` return `False` (item marked
failed) yet leaves the destination file present and not byte-complete:
the partial write is neither removed nor truncated. -/
theorem c3_counterexample :
    download_image (Outcome.streamed [[1], [2]] 1 StreamEnd.transportErr) = Except.ok false
      ∧ downloadFileState (Outcome.streamed [[1], [2]] 1 StreamEnd.transportErr) ≠ none
      ∧ downloadFileState (Outcome.streamed [[1], [2]] 1 StreamEnd.transportErr)
          ≠ some [[1], [2]] := by
  refine ⟨rfl, ?_, ?_⟩ <;> decide

/-- C3, amended: a failure before the output file is opened (transport
error or HTTP error status caught by `raise_for_status`) leaves no
file, and a completed download leaves the byte-complete body; but a
mid-stream transport error or write error leaves exactly the chunks
written so far on disk, so a failed item can leave a partial file. -/
theorem c3_file_state (o : Outcome) :
    (o = Outcome.reqErr ∨ o = Outcome.openErr → downloadFileState o = none)
    ∧ (∀ body k, o = Outcome.streamed body k StreamEnd.complete
        → downloadFileState o = some body)
    ∧ (∀ body k e, o = Outcome.streamed body k e → e ≠ StreamEnd.complete
        → downloadFileState o = some (body.take k)) := by
  refine ⟨?_, ?_, ?_⟩
  · rintro (rfl | rfl) <;> rfl
  · rintro body k rfl
    rfl
  · rintro body k e rfl he
    cases e
    · exact absurd rfl he
    · rfl
    · rfl

/-- C3, witness: evaluating the file-state characterisation on concrete
outcomes. -/
theorem c3_file_state_witness :
    downloadFileState Outcome.reqErr = none
    ∧ downloadFileState (Outcome.streamed [[5]] 1 StreamEnd.complete) = some [[5]]
    ∧ downloadFileState (Outcome.streamed [[5], [6]] 1 StreamEnd.writeErr)
        = some (List.take 1 [[5], [6]]) :=
  ⟨(c3_file_state Outcome.reqErr).1 (Or.inl rfl),
   (c3_file_state _).2.1 [[5]] 1 rfl,
   (c3_file_state _).2.2 [[5], [6]] 1 StreamEnd.writeErr rfl (by decide)⟩

/-- C4, counterexample: the v1.1 prober `validate_url` classifies a URL
as existing on any 200 response, even when the declared content type is
not an image: with a transport answering 200 and `text/html` it returns
`True` although `'image' in 'text/html'` is false. -/
theorem c4_counterexample :
    validate_url (fun _ => some ⟨200, "text/html"⟩) "http://u" = true
      ∧ hasImageCT "text/html" = false := by
  constructor
  · rfl
  · decide

/-- C4, amended: v1.2's `is_image_url` classifies a URL as existing
exactly when the `HEAD` response arrives (no transport error or
timeout) with status 200 and an image content type, v1.3's
`validate_image_urls` keeps exactly the URLs satisfying that same test
(so every error, non-200 status or non-image content type is treated as
not found, and no exception escapes); but v1.1's `validate_url` checks
only status 200 and ignores the content type. -/
theorem c4_prober_classification (head : String → Option HeadResp) (u : String)
    (urls : List String) :
    (is_image_url head u = true
      ↔ ∃ r, head u = some r ∧ r.status = 200 ∧ hasImageCT r.contentType = true)
    ∧ validate_image_urls head urls = urls.filter (is_image_url head)
    ∧ (validate_url head u = true ↔ ∃ r, head u = some r ∧ r.status = 200) := by
  refine ⟨?_, ?_, ?_⟩
  · cases hh : head u with
    | none => simp [is_image_url, hh]
    | some r => simp [is_image_url, hh, Bool.and_eq_true]
  · induction urls with
    | nil => rfl
    | cons v rest ih =>
      cases hh : head v with
      | none =>
        have hv : is_image_url head v = false := by simp [is_image_url, hh]
        simp [validate_image_urls, hh, List.filter_cons, hv, ih]
      | some r =>
        by_cases hc : (r.status == 200 && hasImageCT r.contentType) = true
        · have hv : is_image_url head v = true := by
            simp only [is_image_url, hh]
            exact hc
          simp [validate_image_urls, hh, hc, List.filter_cons, hv, ih]
        · have hv : is_image_url head v = false := by
            simp only [is_image_url, hh]
            simpa using hc
          simp only [Bool.not_eq_true] at hc
          simp [validate_image_urls, hh, hc, List.filter_cons, hv, ih]
  · cases hh : head u with
    | none => simp [validate_url, hh]
    | some r => simp [validate_url, hh]

/-- C4, witness: the classification evaluated on a concrete transport:
an image response at one URL, a non-image response at another. -/
theorem c4_prober_classification_witness :
    (is_image_url (fun _ => some ⟨200, "image/png"⟩) "http://u" = true
      ↔ ∃ r, (fun _ => some (⟨200, "image/png"⟩ : HeadResp)) "http://u" = some r
          ∧ r.status = 200 ∧ hasImageCT r.contentType = true)
    ∧ validate_image_urls (fun _ => some ⟨200, "image/png"⟩) ["http://u"]
        = ["http://u"].filter (is_image_url (fun _ => some ⟨200, "image/png"⟩))
    ∧ (validate_url (fun _ => some ⟨200, "image/png"⟩) "http://u" = true
      ↔ ∃ r, (fun _ => some (⟨200, "image/png"⟩ : HeadResp)) "http://u" = some r
          ∧ r.status = 200) :=
  c4_prober_classification (fun _ => some ⟨200, "image/png"⟩) "http://u" ["http://u"]

/-- C5, counterexample: the claim quantifies over every URL containing
a `/<token>/index.html` segment, but for `https://a/b/index.html/c` the
extraction succeeds while the URL does not even end in `/index.html`,
so the returned base URL cannot be the input with a trailing
`/index.html` removed (the split happens at the last `'/'`, keeping the
`index.html` segment inside the base). -/
theorem c5_counterexample :
    extract_base_url_and_name "https://a/b/index.html/c".data
      = some ("https://a/b/index.html".data, "b".data)
      ∧ ¬ slashIhtml <:+ "https://a/b/index.html/c".data := by
  constructor
  · decide
  · decide

/-- C5, amended: for every URL of the form `{prefix}/{token}/index.html`
ending in the matched segment, with a nonempty word-character token and
no other `index.html` occurrence in the prefix, `extract` returns the
stem equal to the token with all non-alphabetic characters removed
(each stem character is alphabetic and drawn from the token) and the
base URL equal to the input with the trailing `/index.html` removed;
and the candidate URL rebuilt from (base, stem, i) is exactly
`{base}/images/{stem}{i}.jpg`. -/
theorem c5_extract_shape (b t : List Char) (i : Nat) (ht : t ≠ [])
    (htw : ∀ c ∈ t, wordChar c = true) (hb : ¬ ihtml <:+: b) :
    extract_base_url_and_name (b ++ '/' :: t ++ slashIhtml)
      = some (b ++ '/' :: t, t.filter Char.isAlpha)
    ∧ (∀ c ∈ t.filter Char.isAlpha, c.isAlpha = true ∧ c ∈ t)
    ∧ (imageUrl (String.mk (b ++ '/' :: t)) (String.mk (t.filter Char.isAlpha)) i).data
      = (b ++ '/' :: t) ++ "/images/".data ++ t.filter Char.isAlpha
        ++ (toString i).data ++ ".jpg".data := by
  refine ⟨?_, ?_, ?_⟩
  · unfold extract_base_url_and_name
    rw [searchTok_append b t ht htw hb, rsplitBase_append]
  · intro c hc
    rw [List.mem_filter] at hc
    exact ⟨hc.2, hc.1⟩
  · have hmk : ∀ l : List Char, (String.mk l).data = l := fun l => rfl
    simp [imageUrl, String.data_append, hmk, List.append_assoc]

/-- C5, witness: the extraction evaluated on
`https://site.example/gallery42/index.html`, stem `gallery`. -/
theorem c5_extract_shape_witness :
    extract_base_url_and_name
        ("https://site.example".data ++ '/' :: "gallery42".data ++ slashIhtml)
      = some ("https://site.example".data ++ '/' :: "gallery42".data,
          "gallery42".data.filter Char.isAlpha)
    ∧ (∀ c ∈ "gallery42".data.filter Char.isAlpha, c.isAlpha = true ∧ c ∈ "gallery42".data)
    ∧ (imageUrl (String.mk ("https://site.example".data ++ '/' :: "gallery42".data))
        (String.mk ("gallery42".data.filter Char.isAlpha)) 7).data
      = ("https://site.example".data ++ '/' :: "gallery42".data) ++ "/images/".data
        ++ "gallery42".data.filter Char.isAlpha ++ (toString 7).data ++ ".jpg".data :=
  c5_extract_shape "https://site.example".data "gallery42".data 7 (by decide) (by decide)
    (by decide)

/-- C6: for every URL without a `/<token>/index.html` decomposition
(token a nonempty run of word characters), the extraction raises the
format `ValueError`, modelled as returning `none`: no base/name pair is
produced. -/
theorem c6_extract_rejects (u : List Char)
    (h : ¬ ∃ x t y, u = x ++ '/' :: t ++ slashIhtml ++ y ∧ t ≠ []
        ∧ ∀ c ∈ t, wordChar c = true) :
    extract_base_url_and_name u = none := by
  cases hs : searchTok u with
  | none =>
    unfold extract_base_url_and_name
    rw [hs]
  | some tok =>
    obtain ⟨x, y, hxy, hne, hw⟩ := searchTok_some_decomp u tok hs
    exact absurd ⟨x, tok, y, hxy, hne, hw⟩ h

/-- C6, witness: `https://example.com/page.html` has no matching
segment, and `extract` rejects it. -/
theorem c6_extract_rejects_witness :
    extract_base_url_and_name "https://example.com/page.html".data = none := by
  apply c6_extract_rejects
  rintro ⟨x, t, y, hxy, hne, hw⟩
  have hsome := searchTok_isSome_of_decomp x t y hne hw
  rw [← hxy] at hsome
  have hnone : searchTok "https://example.com/page.html".data = none := by decide
  rw [hnone] at hsome
  exact absurd hsome (by decide)

/-- C7, counterexample: neither cited driver produces the claimed
report.  The v1.4 driver is the only one that accepts the bound 3, but
it has no validation stage: with the synthetic transport serving
indices 1 and 3 only it downloads all three candidates and reports
(total 3, downloaded 2, failed 1) — the invalid candidate's failed
download is counted in `failed`, not 0 as the claim states. -/
theorem c7_counterexample :
    pipeline_v14 c7get "https://site.example/gallery42/index.html" 3 = some (3, 2, 1)
    ∧ pipeline_v14 c7get "https://site.example/gallery42/index.html" 3 ≠ some (3, 2, 0) := by
  constructor
  · decide
  · decide

set_option maxRecDepth 40000 in
/-- C7, amended: with the synthetic transport serving images for
indices 1 and 3 only, the v1.4 driver (bound 3, no validation stage)
reports (total_candidates 3, downloaded 2, failed 1), counting the
invalid candidate's failed download; the v1.3 staged driver (validation
stage, candidate bound hard-coded to 100) reports (total_candidates
100, total_valid 2, succeeded 2, failed 0) — there invalid candidates
are filtered out before the download stage and never counted in
`failed`, but its candidate total is 100, not 3.  The claimed report
(3, 2, 2, 0) is produced by neither driver. -/
theorem c7_pipeline_report :
    pipeline_v14 c7get "https://site.example/gallery42/index.html" 3 = some (3, 2, 1)
    ∧ pipeline_v13 c7head c7get "https://site.example/gallery42/index.html"
        = some (100, 2, 2, 0) := by
  constructor
  · decide
  · decide

/-- C8: For `max_count = N ≥ 1` the bounded generator produces exactly
the N candidate URLs for indices 1..N in increasing order, each of the
shape `{base}/images/{stem}{i}.jpg`; for `max_count ≤ 0` it produces
the empty list without error. -/
theorem c8_bounded_generator (base nm : String) (N : Int) :
    (1 ≤ N → generate_image_urls base nm N
        = (List.range' 1 N.toNat).map (imageUrl base nm)
      ∧ ((generate_image_urls base nm N).length : Int) = N)
    ∧ (N ≤ 0 → generate_image_urls base nm N = []) := by
  constructor
  · intro h1
    constructor
    · unfold generate_image_urls
      rw [List.range'_eq_map_range, List.map_map]
      refine List.map_congr_left ?_
      intro a _
      simp [Function.comp, Nat.add_comm]
    · unfold generate_image_urls
      rw [List.length_map, List.length_range]
      exact Int.toNat_of_nonneg (by omega)
  · intro h0
    unfold generate_image_urls
    have hz : N.toNat = 0 := by omega
    rw [hz]
    rfl

/-- C8, witness: the generator evaluated at bounds 3 and -2. -/
theorem c8_bounded_generator_witness :
    (generate_image_urls "b" "n" 3 = (List.range' 1 (3 : Int).toNat).map (imageUrl "b" "n")
      ∧ ((generate_image_urls "b" "n" 3).length : Int) = 3)
    ∧ generate_image_urls "b" "n" (-2) = [] :=
  ⟨(c8_bounded_generator "b" "n" 3).1 (by decide),
   (c8_bounded_generator "b" "n" (-2)).2 (by decide)⟩

/-- C9: the success/fail aggregation of `download_images` is
order-independent: any two completion orders of the same multiset of
per-URL outcomes (a permutation) produce identical results. -/
theorem c9_aggregation_perm (l₁ l₂ : List Outcome) (h : l₁.Perm l₂) :
    download_images l₁ = download_images l₂ := by
  rw [download_images_eq, download_images_eq, perm_any_eq h isExnRes,
    h.countP_eq isSuccRes, h.countP_eq isFailRes]

/-- C9, witness: swapping the completion order of a success and a
failure leaves the counters unchanged. -/
theorem c9_aggregation_perm_witness :
    download_images [Outcome.reqErr, Outcome.streamed [[0]] 1 StreamEnd.complete]
      = download_images [Outcome.streamed [[0]] 1 StreamEnd.complete, Outcome.reqErr] :=
  c9_aggregation_perm _ _ (List.Perm.swap _ _ _)

/-- C10: modelling the prober as an oracle on candidate URLs, the
adaptive discovery loop terminates if and only if some index `j ≥ 1`
starts three consecutive not-found classifications (with an oracle that
never produces three consecutive misses the loop runs forever); and
whenever it exits having performed `pn` probes, the returned list is
exactly the URLs of the probed indices 1..pn the oracle accepted, in
strictly increasing index order. -/
theorem c10_discovery_termination (probe : String → Bool) (base nm : String) :
    (DiscoverTerminates probe base nm
      ↔ ∃ j, 1 ≤ j ∧ probe (imageUrl base nm j) = false
          ∧ probe (imageUrl base nm (j + 1)) = false
          ∧ probe (imageUrl base nm (j + 2)) = false)
    ∧ ∀ fuel urls pn, discover_image_urls probe base nm fuel = some (urls, pn) →
        urls = ((List.range' 1 pn).filter (fun i => probe (imageUrl base nm i))).map
          (imageUrl base nm) := by
  constructor
  · constructor
    · rintro ⟨fuel, hfuel⟩
      rw [Option.isSome_iff_exists] at hfuel
      obtain ⟨⟨urls, pn⟩, hr⟩ := hfuel
      unfold discover_image_urls at hr
      exact discoverLoop_some_triple probe base nm fuel 0 1 [] 0 (urls, pn) hr (by omega)
        (by omega) (fun k hk1 hk2 => absurd hk2 (by omega))
    · rintro ⟨j, hj, h1, h2, h3⟩
      refine ⟨j + 4, ?_⟩
      unfold discover_image_urls
      exact discoverLoop_isSome probe base nm j h1 h2 h3 (j + 4) 0 1 [] 0 (Or.inl hj)
        (by omega)
  · intro fuel urls pn h
    unfold discover_image_urls at h
    have hc := discoverLoop_some_eq probe base nm fuel 0 1 [] 0 urls pn h rfl
    simpa using hc.2

/-- C10, witness: the synthetic prober accepting indices 1..3 gives a
terminating run that returns exactly the accepted URLs of the 6 probed
indices. -/
theorem c10_discovery_termination_witness :
    DiscoverTerminates demoProbe "http://s" "pic"
    ∧ [imageUrl "http://s" "pic" 1, imageUrl "http://s" "pic" 2, imageUrl "http://s" "pic" 3]
      = ((List.range' 1 6).filter (fun i => demoProbe (imageUrl "http://s" "pic" i))).map
          (imageUrl "http://s" "pic") :=
  ⟨(c10_discovery_termination demoProbe "http://s" "pic").1.mpr
      ⟨4, by decide, by decide, by decide, by decide⟩,
   (c10_discovery_termination demoProbe "http://s" "pic").2 100
      [imageUrl "http://s" "pic" 1, imageUrl "http://s" "pic" 2, imageUrl "http://s" "pic" 3]
      6 (by decide)⟩
